import Mathlib

/- Verification development for the batch-generation pipeline of data.py
   (class DataBase and its helpers).  Dataset entries are (reference, label)
   pairs; file-path references are modelled as natural numbers, labels as
   natural numbers.  All functions are shallow embeddings of the Python
   source; loops are written as fuelled structural recursions where the call
   sites pass enough fuel for the recursion to run exactly as the source
   loop does. -/

namespace SpeakerData

/-- A dataset entry `(sample_reference, label)` as built by
`get_files_origin`: component 1 models the file path, component 2 the
integer class label. -/
abbrev Entry := Nat × Nat

/-- The mutable state of the per-window scan loop in
`DataBase.group_shuffle`: the dataset list being rearranged in place, the
next open position `j`, the list `ids` of still-active representative keys
and the dict `counts` of remaining slots per key. -/
structure GState where
  ds : List Entry
  j : Nat
  ids : List Nat
  counts : Nat → Nat

/-- The in-place exchange `data = dataset[k]; dataset[k] = dataset[j];
dataset[j] = data` from `group_shuffle` (both reads happen before the
writes land on the other index). -/
def swapAt (l : List Entry) (k j : Nat) : List Entry :=
  (l.set k (l.getD j (0, 0))).set j (l.getD k (0, 0))

/-- One matching iteration of the scan loop of `group_shuffle`: decrement
the counter of the key `dataset[k][0]`, drop the key from the active list
once the counter reaches zero, swap the entry into position `j`, advance
`j`.  Note the source keys the match on `data[0]`, the sample reference. -/
def scanStep (st : GState) (k : Nat) : GState :=
  let data := st.ds.getD k (0, 0)
  let counts' := Function.update st.counts data.1 (st.counts data.1 - 1)
  ⟨swapAt st.ds k st.j, st.j + 1,
    if counts' data.1 = 0 then st.ids.erase data.1 else st.ids, counts'⟩

/-- The scan loop `for k in range(j, upper)` of `group_shuffle`, keyed on
`data[0]` exactly as the source is.  `fuel ≥ upper - k` makes the
recursion identical to the source loop; call sites pass `fuel = upper`.
The loop breaks as soon as the window is filled (`j >= i + batch_size`). -/
def windowScan (bs i upper : Nat) : Nat → Nat → GState → GState
  | 0, _, st => st
  | fuel + 1, k, st =>
    if k < upper then
      if (st.ds.getD k (0, 0)).1 ∈ st.ids ∧ 0 < st.counts (st.ds.getD k (0, 0)).1 then
        if i + bs ≤ st.j + 1 then scanStep st k
        else windowScan bs i upper fuel (k + 1) (scanStep st k)
      else windowScan bs i upper fuel (k + 1) st
    else st

/-- `ids = [d[0] for d in dataset[i : i + batch_groups]]`: the
representative keys of the window starting at `i`. -/
def repIds (ds : List Entry) (i G : Nat) : List Nat :=
  ((ds.drop i).take G).map Prod.fst

/-- The state at the top of one iteration of the window loop of
`group_shuffle`: `j = i + batch_groups`, the representative keys, and the
dict `{ids[t]: group_size - 1}` (one dict entry per distinct key, matching
the Python dict comprehension). -/
def initState (ds : List Entry) (i G gsize : Nat) : GState :=
  ⟨ds, i + G, repIds ds i G, fun x => if x ∈ repIds ds i G then gsize - 1 else 0⟩

/-- One iteration of `for i in range(0, upper, batch_size)` in
`group_shuffle`: run the scan over `[i + batch_groups, upper)`. -/
def processWindow (bs gs upper : Nat) (ds : List Entry) (i : Nat) : List Entry :=
  (windowScan bs i upper upper (i + bs / gs) (initState ds i (bs / gs) gs)).ds

/-- The loop `while len(dataset) % batch_size > 0: dataset.pop()` from
`group_shuffle`; call sites pass `fuel = len(dataset)`, which is enough
for the loop to run to completion. -/
def truncLoop (bs : Nat) : Nat → List Entry → List Entry
  | 0, ds => ds
  | fuel + 1, ds => if 0 < ds.length % bs then truncLoop bs fuel ds.dropLast else ds

/-- `DataBase.group_shuffle(dataset, batch_size, shuffle, group_size)`
after the optional initial `random.shuffle`: drop trailing entries until
the length divides `batch_size`, then run the per-window grouping scan
over each batch-sized window.  The `shuffle=True` variant is modelled by
applying this function to an arbitrary permutation of the input (the
post-`random.shuffle` list); with `shuffle=False` the source reaches this
code with the input list unchanged. -/
def group_shuffle (ds : List Entry) (bs gs : Nat) : List Entry :=
  let t := truncLoop bs ds.length ds
  (List.range (t.length / bs)).foldl (fun d w => processWindow bs gs t.length d (w * bs)) t

/-- `group_shuffle` preceded by the `assert batch_size % group_size == 0`
check: `none` models the AssertionError raised at shuffle time. -/
def group_shuffle_checked (ds : List Entry) (bs gs : Nat) : Option (List Entry) :=
  if bs % gs = 0 then some (group_shuffle ds bs gs) else none

/- Spec variant of the shuffler.  Modelled from the spec: the spec's
step 4/5 say the representatives of a window are the labels of its first
`batch_size/group_size` entries and that an encountered entry is matched
by its label; the source instead keys everything on `data[0]`, the sample
reference.  The following definitions repeat the scan with the key
`data[1]` (the label) so the two behaviours can be compared. -/

/-- Spec-worded counterpart of `scanStep` keyed on the label `data[1]`. -/
def scanStepL (st : GState) (k : Nat) : GState :=
  let data := st.ds.getD k (0, 0)
  let counts' := Function.update st.counts data.2 (st.counts data.2 - 1)
  ⟨swapAt st.ds k st.j, st.j + 1,
    if counts' data.2 = 0 then st.ids.erase data.2 else st.ids, counts'⟩

/-- Spec-worded counterpart of `windowScan`, matching entries by label. -/
def windowScanL (bs i upper : Nat) : Nat → Nat → GState → GState
  | 0, _, st => st
  | fuel + 1, k, st =>
    if k < upper then
      if (st.ds.getD k (0, 0)).2 ∈ st.ids ∧ 0 < st.counts (st.ds.getD k (0, 0)).2 then
        if i + bs ≤ st.j + 1 then scanStepL st k
        else windowScanL bs i upper fuel (k + 1) (scanStepL st k)
      else windowScanL bs i upper fuel (k + 1) st
    else st

/-- The labels of the first `G` entries of the window, per the spec. -/
def repLabels (ds : List Entry) (i G : Nat) : List Nat :=
  ((ds.drop i).take G).map Prod.snd

/-- Spec-worded counterpart of `initState` using labels as keys. -/
def initStateL (ds : List Entry) (i G gsize : Nat) : GState :=
  ⟨ds, i + G, repLabels ds i G, fun x => if x ∈ repLabels ds i G then gsize - 1 else 0⟩

/-- Spec-worded counterpart of `processWindow`. -/
def processWindowL (bs gs upper : Nat) (ds : List Entry) (i : Nat) : List Entry :=
  (windowScanL bs i upper upper (i + bs / gs) (initStateL ds i (bs / gs) gs)).ds

/-- The Group-Constrained Shuffler as the spec words it (label-keyed);
identical to `group_shuffle` in every other respect. -/
def group_shuffleSpec (ds : List Entry) (bs gs : Nat) : List Entry :=
  let t := truncLoop bs ds.length ds
  (List.range (t.length / bs)).foldl (fun d w => processWindowL bs gs t.length d (w * bs)) t

/- Dataset Partitioner (DataBase.get_files / DataBase.get_files_packed). -/

/-- The partition computed by `DataBase.get_files` in unpacked mode:
`val_set`, `main_set` and the step bookkeeping. -/
structure Partition where
  val_set : List Entry
  main_set : List Entry
  val_steps : Nat
  epoch_steps : Nat
deriving DecidableEq

/-- `DataBase.get_files`, non-packed branch, acting on the list returned
by `get_files_origin`.  `none` models an AssertionError: the source
asserts `val_size < len(data_list)` (when `val_size` is set) and, after
removing the validation slice, `batch_size <= len(data_list)`.  The
validation size is first rounded down to a whole number of batches
(`val_steps = val_size // batch_size`, `val_size = val_steps *
batch_size`) and the main set is truncated to `epoch_steps * batch_size`
entries. -/
def get_files (data_list : List Entry) (bs : Nat) (val_size : Option Nat) :
    Option Partition :=
  match val_size with
  | some v =>
    if v < data_list.length then
      let val_steps := v / bs
      let rest := data_list.drop (val_steps * bs)
      if bs ≤ rest.length then
        some ⟨data_list.take (val_steps * bs), rest.take (rest.length / bs * bs),
          val_steps, rest.length / bs⟩
      else none
    else none
  | none =>
    if bs ≤ data_list.length then
      some ⟨[], data_list.take (data_list.length / bs * bs), 0, data_list.length / bs⟩
    else none

/-- The partition computed by `DataBase.get_files_packed`; entries are
paths of pre-assembled one-batch archives, modelled as naturals. -/
structure PartitionP where
  val_set : List Nat
  main_set : List Nat
  val_steps : Nat
  epoch_steps : Nat
deriving DecidableEq

/-- `DataBase.get_files_packed`: each list entry is one whole-batch
archive.  The only assertion is `val_steps < len(data_list)` (when
`val_size` is set); the validation slice is `data_list[:val_steps]`, the
main set is the remainder, and `epoch_steps = len(main_set)`. -/
def get_files_packed (data_list : List Nat) (bs : Nat) (val_size : Option Nat) :
    Option PartitionP :=
  match val_size with
  | some v =>
    if v / bs < data_list.length then
      some ⟨data_list.take (v / bs), data_list.drop (v / bs), v / bs,
        data_list.length - v / bs⟩
    else none
  | none => some ⟨[], data_list, 0, data_list.length⟩

/- Batch Materialization Scheduler (DataBase._gen_batches_origin),
modelled at the level of the batch-sized windows it slices out of the
dataset list.  Randomness-free model: `shuffle=False`, under which the
epoch-e (e > 0) reshuffle `group_shuffle(dataset.copy(), batch_size,
shuffle, group_size)` is deterministic. -/

/-- The window `_dataset[step*batch_size : min(len, step*batch_size +
batch_size)]` sliced for one step. -/
def batchWindow (ds : List Entry) (bs step : Nat) : List Entry :=
  (ds.drop (step * bs)).take bs

/-- The windows produced for epoch `e` by `_gen_batches_origin` with
`max_steps = epoch_steps * num_epochs`: intra-epoch steps run from
`max(0, start - epoch_steps*e)` to `min(epoch_steps, max_steps -
epoch_steps*e)`; for `e > 0` the windows are sliced from
`group_shuffle` applied to a fresh copy of the original list `ds0`. -/
def epochWindows (ds0 : List Entry) (bs es ne gs e start : Nat) : List (List Entry) :=
  let d := if 0 < e then group_shuffle ds0 bs gs else ds0
  let lo := start - es * e
  let hi := min es (es * ne - es * e)
  (List.range (hi - lo)).map (fun t => batchWindow d bs (lo + t))

/-- The full window sequence of `_gen_batches_origin(dataset,
epoch_steps, num_epochs, start)`: epochs run from `start // epoch_steps`
to `num_epochs - 1`. -/
def genWindows (ds0 : List Entry) (bs es ne gs start : Nat) : List (List Entry) :=
  (((List.range ne).drop (start / es)).map
    (fun e => epochWindows ds0 bs es ne gs e start)).flatten

/-- The body of the epoch loop of `_gen_batches_origin`, threading the
caller's dataset list explicitly as state (second component): the source
reads `dataset` but only ever hands `dataset.copy()` to the in-place
`group_shuffle`, so the state component is returned unchanged. -/
def epochBody (bs es ne gs start : Nat)
    (acc : List (List Entry) × List Entry) (e : Nat) :
    List (List Entry) × List Entry :=
  (acc.1 ++ epochWindows acc.2 bs es ne gs e start, acc.2)

/-- `_gen_batches_origin` as a state-passing run: returns the produced
window sequence together with the caller's dataset list after the
generator has finished. -/
def runGen (caller : List Entry) (bs es ne gs start : Nat) :
    List (List Entry) × List Entry :=
  ((List.range ne).drop (start / es)).foldl (epochBody bs es ne gs start) ([], caller)

/- DataBase.extract_batch, modelled at the level of numpy array shapes
(a shape is the list of dimension sizes).  process_sample returns a
mono signal with an explicit leading channel dimension, shape
[1, samples]. -/

/-- Shape of one decoded sample as returned by `process_sample`:
`np.expand_dims(data, 0)` gives `[1, L]` for a mono signal of `L`
samples. -/
def sampleShape (L : Nat) : List Nat := [1, L]

/-- `np.pad(arr, (0, m), 'constant')`: numpy broadcasts the single
`(before, after)` pair to every axis, so each dimension grows by `m`. -/
def npPadAll (m : Nat) (s : List Nat) : List Nat := s.map (fun a => a + m)

/-- `np.stack(arrays)`: requires every array to have the same shape `s`
and yields shape `len :: s`; `none` models the ValueError raised on
mismatched shapes (or an empty input). -/
def npStack : List (List Nat) → Option (List Nat)
  | [] => none
  | s :: rest => if rest.all (fun t => t = s) then some ((rest.length + 1) :: s) else none

/-- The last dimension `shape[-1]` of a shape. -/
def lastDim (s : List Nat) : Nat := s.getLastD 0

/-- `np.expand_dims(arr, -2)`: insert a singleton axis before the last
one. -/
def npExpandDimsPenult (s : List Nat) : List Nat :=
  match s.reverse with
  | [] => [1]
  | a :: rest => (a :: 1 :: rest).reverse

/-- The `inputs` shape computed by `DataBase.extract_batch` from the
per-sample signal lengths of one window: when `pp_duration <= 0` every
sample is padded with `np.pad(i, (0, max_samples - i.shape[-1]))`
before `np.stack`; finally `np.expand_dims(inputs, -2)`. -/
def extract_batch_inputs_shape (lengths : List Nat) (ppDurNonpos : Bool) :
    Option (List Nat) :=
  let shapes := lengths.map sampleShape
  let padded := if ppDurNonpos then
      shapes.map (fun s => npPadAll (lengths.foldl max 0 - lastDim s) s)
    else shapes
  (npStack padded).map npExpandDimsPenult

/-- The `labels` vector assembled by `extract_batch`: the window's labels
in order (shape `[batch_size]`). -/
def extract_batch_labels (batch : List Entry) : List Nat := batch.map Prod.snd

/- DataBase.process_sample normalization step, on exact rationals. -/

/-- `np.max(data)` for a non-empty signal: the (signed) maximum entry. -/
def npMax : List ℚ → ℚ
  | [] => 0
  | a :: r => r.foldl max a

/-- The normalization block of `process_sample`: `audio_max =
np.max(data)`; if `audio_max > 1e-6` then `data *= 1 / audio_max`. -/
def normalize_sample (data : List ℚ) : List ℚ :=
  if npMax data > 1 / 1000000 then data.map (fun x => x * (1 / npMax data)) else data

/- Lemmas about the in-place swap of `group_shuffle`. -/

/-- `scanStep` swaps positions `k` and `j` of the dataset. -/
theorem scanStep_ds (st : GState) (k : Nat) : (scanStep st k).ds = swapAt st.ds k st.j := rfl

/-- `scanStep` advances the open-position pointer by one. -/
theorem scanStep_j (st : GState) (k : Nat) : (scanStep st k).j = st.j + 1 := rfl

/-- Swapping preserves the length of the list. -/
theorem swapAt_length (l : List Entry) (k j : Nat) : (swapAt l k j).length = l.length := by
  simp [swapAt]

/-- Positions strictly below the open-position pointer are untouched by a
swap. -/
theorem swapAt_frame (l : List Entry) (k j p : Nat) (hpj : p < j) (hjk : j ≤ k) :
    (swapAt l k j)[p]? = l[p]? := by
  unfold swapAt
  rw [List.getElem?_set_ne (by omega), List.getElem?_set_ne (by omega)]

/-- Setting an index to its current value leaves the list unchanged. -/
theorem set_getD_self {α : Type} (d : α) : ∀ (l : List α) (k : Nat), l.set k (l.getD k d) = l
  | [], _ => rfl
  | _ :: _, 0 => rfl
  | a :: t, k + 1 => by
    rw [List.getD_cons_succ, List.set_cons_succ, set_getD_self d t k]

/-- Moving the element at index `k` to the head while writing `a` at
index `k` permutes `a :: t`. -/
theorem getD_set_cons_perm {α : Type} (d a : α) :
    ∀ (t : List α) (k : Nat), k < t.length → (t.getD k d :: t.set k a).Perm (a :: t)
  | [], k, h => absurd h (by simp)
  | b :: s, 0, _ => by simpa using List.Perm.swap a b s
  | b :: s, k + 1, h => by
    rw [List.getD_cons_succ, List.set_cons_succ]
    exact ((List.Perm.swap b (s.getD k d) (s.set k a)).trans
      ((getD_set_cons_perm d a s k (by simpa using h)).cons b)).trans
      (List.Perm.swap a b s)

/-- `swapAt` on a cons with both indices positive acts on the tail. -/
theorem swapAt_cons_succ (a : Entry) (t : List Entry) (k j : Nat) :
    swapAt (a :: t) (k + 1) (j + 1) = a :: swapAt t k j := by simp [swapAt]

/-- `swapAt` exchanging the head with position `k + 1`. -/
theorem swapAt_cons_zero (a : Entry) (t : List Entry) (k : Nat) :
    swapAt (a :: t) (k + 1) 0 = t.getD k (0, 0) :: t.set k a := by simp [swapAt]

/-- A swap with the lower index strictly below the upper one permutes the
list. -/
theorem swapAt_perm_lt : ∀ (l : List Entry) (j k : Nat), j < k → k < l.length →
    (swapAt l k j).Perm l
  | [], _, _, _, h => absurd h (by simp)
  | a :: t, 0, k + 1, _, h => by
    rw [swapAt_cons_zero]
    exact getD_set_cons_perm _ a t k (by simpa using h)
  | a :: t, j + 1, k + 1, hj, h => by
    rw [swapAt_cons_succ]
    exact (swapAt_perm_lt t j k (by omega) (by simpa using h)).cons a
  | _ :: _, _ + 1, 0, hj, _ => absurd hj (by omega)

/-- Any in-bounds swap of `group_shuffle` permutes the dataset list. -/
theorem swapAt_perm (l : List Entry) (k j : Nat) (hjk : j ≤ k) (hk : k < l.length) :
    (swapAt l k j).Perm l := by
  rcases Nat.eq_or_lt_of_le hjk with h | h
  · subst h
    unfold swapAt
    rw [List.set_set, set_getD_self]
  · exact swapAt_perm_lt l j k h hk

/- The master invariant of the scan loop: it preserves the length of the
dataset, only permutes it, and never writes below the open-position
pointer. -/

/-- The scan loop of `group_shuffle` preserves length, permutes the
dataset, and leaves every position below the initial fill pointer `j`
exactly as it found it. -/
theorem windowScan_master (bs i upper : Nat) :
    ∀ (fuel k : Nat) (st : GState), st.j ≤ k → upper ≤ st.ds.length →
      (windowScan bs i upper fuel k st).ds.length = st.ds.length ∧
      (windowScan bs i upper fuel k st).ds.Perm st.ds ∧
      ∀ p, p < st.j → (windowScan bs i upper fuel k st).ds[p]? = st.ds[p]?
  | 0, k, st, _, _ => by simp [windowScan]
  | fuel + 1, k, st, hjk, hub => by
    rw [windowScan]
    by_cases hk : k < upper
    · simp only [if_pos hk]
      have hkl : k < st.ds.length := by omega
      by_cases hc : (st.ds.getD k (0, 0)).1 ∈ st.ids ∧ 0 < st.counts (st.ds.getD k (0, 0)).1
      · simp only [if_pos hc]
        by_cases hb : i + bs ≤ st.j + 1
        · simp only [if_pos hb, scanStep_ds]
          exact ⟨swapAt_length _ _ _, swapAt_perm _ _ _ hjk hkl,
            fun p hp => swapAt_frame _ _ _ _ hp hjk⟩
        · simp only [if_neg hb]
          have hrec := windowScan_master bs i upper fuel (k + 1) (scanStep st k)
            (by rw [scanStep_j]; omega)
            (by rw [scanStep_ds, swapAt_length]; exact hub)
          refine ⟨?_, ?_, ?_⟩
          · rw [hrec.1, scanStep_ds, swapAt_length]
          · exact hrec.2.1.trans (by rw [scanStep_ds]; exact swapAt_perm _ _ _ hjk hkl)
          · intro p hp
            rw [hrec.2.2 p (by rw [scanStep_j]; omega), scanStep_ds,
              swapAt_frame _ _ _ _ hp hjk]
      · simp only [if_neg hc]
        exact windowScan_master bs i upper fuel (k + 1) st (by omega) hub
    · simp [if_neg hk]

/-- One window pass of `group_shuffle` preserves the dataset length. -/
theorem processWindow_length (bs gs upper : Nat) (ds : List Entry) (i : Nat)
    (hub : upper ≤ ds.length) : (processWindow bs gs upper ds i).length = ds.length :=
  (windowScan_master bs i upper upper (i + bs / gs) (initState ds i (bs / gs) gs)
    (Nat.le_refl _) hub).1

/-- One window pass of `group_shuffle` permutes the dataset. -/
theorem processWindow_perm (bs gs upper : Nat) (ds : List Entry) (i : Nat)
    (hub : upper ≤ ds.length) : (processWindow bs gs upper ds i).Perm ds :=
  (windowScan_master bs i upper upper (i + bs / gs) (initState ds i (bs / gs) gs)
    (Nat.le_refl _) hub).2.1

/-- One window pass of `group_shuffle` never changes a position below
`i + batch_size / group_size`. -/
theorem processWindow_frame (bs gs upper : Nat) (ds : List Entry) (i : Nat)
    (hub : upper ≤ ds.length) (p : Nat) (hp : p < i + bs / gs) :
    (processWindow bs gs upper ds i)[p]? = ds[p]? :=
  (windowScan_master bs i upper upper (i + bs / gs) (initState ds i (bs / gs) gs)
    (Nat.le_refl _) hub).2.2 p hp

/-- The window loop of `group_shuffle` permutes the (truncated) dataset. -/
theorem foldWindows_perm (bs gs upper : Nat) :
    ∀ (ws : List Nat) (d : List Entry), upper ≤ d.length →
      (ws.foldl (fun d w => processWindow bs gs upper d (w * bs)) d).Perm d
  | [], d, _ => List.Perm.refl d
  | w :: ws, d, hub => by
    have h2 := foldWindows_perm bs gs upper ws (processWindow bs gs upper d (w * bs))
      (by rw [processWindow_length bs gs upper d (w * bs) hub]; exact hub)
    simpa using h2.trans (processWindow_perm bs gs upper d (w * bs) hub)

/-- For a length not divisible by the batch size, removing one element
leaves the quotient by the batch size unchanged. -/
theorem pred_div_eq (len bs : Nat) (hbs : 0 < bs) (h : len % bs ≠ 0) :
    (len - 1) / bs = len / bs := by
  have hmod := Nat.div_add_mod len bs
  have hlt : len % bs < bs := Nat.mod_lt _ hbs
  have h1 : len - 1 = bs * (len / bs) + (len % bs - 1) := by omega
  rw [h1, Nat.mul_add_div hbs]
  have h2 : (len % bs - 1) / bs = 0 := Nat.div_eq_of_lt (by omega)
  omega

/-- The pop loop of `group_shuffle` keeps exactly the longest prefix
whose length is a multiple of the batch size. -/
theorem truncLoop_take (bs : Nat) (hbs : 0 < bs) :
    ∀ (fuel : Nat) (ds : List Entry), ds.length ≤ fuel →
      truncLoop bs fuel ds = ds.take (ds.length / bs * bs)
  | 0, ds, h => by
    have hnil : ds = [] := List.eq_nil_of_length_eq_zero (by omega)
    subst hnil; simp [truncLoop]
  | fuel + 1, ds, h => by
    rw [truncLoop]
    by_cases hm : 0 < ds.length % bs
    · rw [if_pos hm]
      have hpos : 0 < ds.length := by
        rcases Nat.eq_zero_or_pos ds.length with h0 | h0
        · rw [h0] at hm; simp at hm
        · exact h0
      have hlen : ds.dropLast.length = ds.length - 1 := by simp
      rw [truncLoop_take bs hbs fuel ds.dropLast (by omega), hlen, List.dropLast_eq_take,
        List.take_take, pred_div_eq ds.length bs hbs (by omega)]
      have hle : ds.length / bs * bs ≤ ds.length - 1 := by
        have hdm := Nat.div_mul_le_self (ds.length - 1) bs
        rw [pred_div_eq ds.length bs hbs (by omega)] at hdm
        exact hdm
      rw [min_eq_left hle]
    · rw [if_neg hm]
      have hdvd : bs ∣ ds.length := Nat.dvd_of_mod_eq_zero (by omega)
      rw [Nat.div_mul_cancel hdvd, List.take_length]

/-- `group_shuffle` (with shuffling disabled) permutes the first
`(len // batch_size) * batch_size` entries of its input. -/
theorem group_shuffle_perm (ds : List Entry) (bs gs : Nat) (hbs : 0 < bs) :
    (group_shuffle ds bs gs).Perm (ds.take (ds.length / bs * bs)) := by
  unfold group_shuffle
  simp only [truncLoop_take bs hbs ds.length ds (Nat.le_refl _)]
  exact foldWindows_perm bs gs _ _ _ (Nat.le_refl _)

/-- The length of a `group_shuffle` result. -/
theorem group_shuffle_length (ds : List Entry) (bs gs : Nat) (hbs : 0 < bs) :
    (group_shuffle ds bs gs).length = ds.length / bs * bs := by
  rw [(group_shuffle_perm ds bs gs hbs).length_eq, List.length_take,
    Nat.min_eq_left (Nat.div_mul_le_self _ _)]

/- Claim theorems. -/

/-- C1: the claimed matching rule fails on the code.  On the dataset
`[(0,0),(1,1),(2,2),(3,0)]` with `batch_size = 4`, `group_size = 2`
(`G = 2`), the entry `(3,0)` at position 3 has label 0, which equals the
active representative label of position 0 (one remaining slot), so per
the claim it must be swapped into position 2; `group_shuffle` instead
keys the match on `data[0]`, the sample reference, and leaves the list
unchanged, while the spec-worded label-keyed shuffler performs the swap. -/
theorem group_shuffle_reference_keyed_eval :
    group_shuffle [(0,0),(1,1),(2,2),(3,0)] 4 2 = [(0,0),(1,1),(2,2),(3,0)] ∧
    ((3,0) : Entry).2 = ((0,0) : Entry).2 ∧
    group_shuffleSpec [(0,0),(1,1),(2,2),(3,0)] 4 2 = [(0,0),(1,1),(3,0),(2,2)] :=
  ⟨by decide, rfl, by decide⟩

/-- C2 counterexample: on `[(0,0),(1,1),(2,2),(0,3)]` with
`batch_size = 2`, `group_size = 2`, the entry `(0,3)` at position 3 —
beyond the first window `[0,2)` — is examined by the scan of window 0 and
swapped into position 1 of that window, so the scan is not bounded to the
current window. -/
theorem group_shuffle_scan_crosses_window_eval :
    (group_shuffle [(0,0),(1,1),(2,2),(0,3)] 2 2)[1]? = some (0,3) ∧
    ([(0,0),(1,1),(2,2),(0,3)] : List Entry)[1]? = some (1,1) ∧
    ([(0,0),(1,1),(2,2),(0,3)] : List Entry)[3]? = some (0,3) := by decide

/-- C2 (amended): the per-window scan of `group_shuffle` is bounded below
by `i + batch_size/group_size` and above by the end of the truncated
list — not by the window boundary: positions before the window's fill
region keep their values, while entries up to the end of the list may be
examined and swapped into the window. -/
theorem processWindow_scan_bound (bs gs : Nat) (ds : List Entry) (i p : Nat)
    (hp : p < i + bs / gs ∨ ds.length ≤ p) :
    (processWindow bs gs ds.length ds i)[p]? = ds[p]? := by
  rcases hp with hp | hp
  · exact processWindow_frame bs gs ds.length ds i (Nat.le_refl _) p hp
  · have hl := processWindow_length bs gs ds.length ds i (Nat.le_refl _)
    rw [List.getElem?_eq_none (by omega), List.getElem?_eq_none hp]

/-- Witness for the amended C2 theorem at a concrete window. -/
theorem processWindow_scan_bound_witness :
    (0 < 0 + 2 / 2 ∨ ([(0,0),(1,1),(2,2),(0,3)] : List Entry).length ≤ 0) ∧
    (processWindow 2 2 ([(0,0),(1,1),(2,2),(0,3)] : List Entry).length
      [(0,0),(1,1),(2,2),(0,3)] 0)[0]? = ([(0,0),(1,1),(2,2),(0,3)] : List Entry)[0]? :=
  ⟨Or.inl (by decide),
    processWindow_scan_bound 2 2 [(0,0),(1,1),(2,2),(0,3)] 0 0 (Or.inl (by decide))⟩

/-- C10: with shuffling disabled `group_shuffle` returns a permutation of
the first `(n // batch_size) * batch_size` entries of its input, of
exactly that length, and — applied to any permutation of the input, i.e.
to any outcome of the enabled `random.shuffle` — its result is a
sub-multiset of the original entries. -/
theorem group_shuffle_preserves_entries (ds : List Entry) (bs gs : Nat) (hbs : 0 < bs) :
    (group_shuffle ds bs gs).length = ds.length / bs * bs ∧
    (group_shuffle ds bs gs).Perm (ds.take (ds.length / bs * bs)) ∧
    ∀ s : List Entry, s.Perm ds →
      (group_shuffle s bs gs : Multiset Entry) ≤ (ds : Multiset Entry) := by
  refine ⟨group_shuffle_length ds bs gs hbs, group_shuffle_perm ds bs gs hbs, ?_⟩
  intro s hs
  rw [Multiset.coe_eq_coe.mpr (group_shuffle_perm s bs gs hbs)]
  exact (Multiset.coe_le.mpr (List.take_sublist _ _).subperm).trans
    (le_of_eq (Multiset.coe_eq_coe.mpr hs))

/-- Witness for C10 on a list with a trailing remainder entry. -/
theorem group_shuffle_preserves_entries_witness :
    0 < 2 ∧
    ((group_shuffle [(0,0),(1,1),(2,2)] 2 2).length =
      ([(0,0),(1,1),(2,2)] : List Entry).length / 2 * 2 ∧
     (group_shuffle [(0,0),(1,1),(2,2)] 2 2).Perm
       (([(0,0),(1,1),(2,2)] : List Entry).take
         (([(0,0),(1,1),(2,2)] : List Entry).length / 2 * 2)) ∧
     ∀ s : List Entry, s.Perm [(0,0),(1,1),(2,2)] →
       (group_shuffle s 2 2 : Multiset Entry) ≤ ([(0,0),(1,1),(2,2)] : Multiset Entry)) :=
  ⟨by decide, group_shuffle_preserves_entries [(0,0),(1,1),(2,2)] 2 2 (by decide)⟩

/-- C3: for the pre-partition list produced by discovery (which runs
`group_shuffle`, so its length is a multiple of the batch size), the
unpacked partition satisfies `val_set ++ main_set = input`; hence the
union of the two sets of references is the input's set of references,
and when the input's references are distinct (file paths are unique) the
two sets are disjoint. -/
theorem partition_union_disjoint (l : List Entry) (bs gs v : Nat) (p : Partition)
    (hbs : 0 < bs)
    (hp : get_files (group_shuffle l bs gs) bs (some v) = some p) :
    p.val_set ++ p.main_set = group_shuffle l bs gs ∧
    (((group_shuffle l bs gs).map Prod.fst).Nodup →
      ∀ r, r ∈ p.val_set.map Prod.fst → r ∉ p.main_set.map Prod.fst) := by
  have hdvd : bs ∣ (group_shuffle l bs gs).length := by
    rw [group_shuffle_length l bs gs hbs]
    exact dvd_mul_left bs _
  simp only [get_files] at hp
  split at hp
  case isTrue hv =>
    split at hp
    case isTrue hb =>
      rw [Option.some_inj] at hp
      subst hp
      have hrest : bs ∣ ((group_shuffle l bs gs).drop (v / bs * bs)).length := by
        rw [List.length_drop]
        exact Nat.dvd_sub' hdvd (dvd_mul_left bs _)
      have hmain : ((group_shuffle l bs gs).drop (v / bs * bs)).take
          (((group_shuffle l bs gs).drop (v / bs * bs)).length / bs * bs) =
          (group_shuffle l bs gs).drop (v / bs * bs) := by
        rw [Nat.div_mul_cancel hrest, List.take_length]
      have hsplit : (group_shuffle l bs gs).take (v / bs * bs) ++
          ((group_shuffle l bs gs).drop (v / bs * bs)).take
            (((group_shuffle l bs gs).drop (v / bs * bs)).length / bs * bs) =
          group_shuffle l bs gs := by
        rw [hmain, List.take_append_drop]
      refine ⟨hsplit, ?_⟩
      intro hnd r hrv hrm
      rw [← hsplit, List.map_append] at hnd
      exact (List.nodup_append.mp hnd).2.2 hrv hrm
    case isFalse hb => exact absurd hp (by simp)
  case isFalse hv => exact absurd hp (by simp)

/-- Witness for C3 at a concrete dataset. -/
theorem partition_union_disjoint_witness :
    0 < 2 ∧
    get_files (group_shuffle [(0,0),(1,1),(2,2),(3,3)] 2 2) 2 (some 2) =
      some ⟨[(0,0),(1,1)], [(2,2),(3,3)], 1, 1⟩ ∧
    (Partition.val_set ⟨[(0,0),(1,1)], [(2,2),(3,3)], 1, 1⟩ ++
      Partition.main_set ⟨[(0,0),(1,1)], [(2,2),(3,3)], 1, 1⟩ =
      group_shuffle [(0,0),(1,1),(2,2),(3,3)] 2 2 ∧
     (((group_shuffle [(0,0),(1,1),(2,2),(3,3)] 2 2).map Prod.fst).Nodup →
       ∀ r, r ∈ (Partition.val_set ⟨[(0,0),(1,1)], [(2,2),(3,3)], 1, 1⟩).map Prod.fst →
         r ∉ (Partition.main_set ⟨[(0,0),(1,1)], [(2,2),(3,3)], 1, 1⟩).map Prod.fst)) :=
  ⟨by decide, by decide,
    partition_union_disjoint [(0,0),(1,1),(2,2),(3,3)] 2 2 2
      ⟨[(0,0),(1,1)], [(2,2),(3,3)], 1, 1⟩ (by decide) (by decide)⟩

/-- C4 counterexample: in packed mode with five one-batch archives,
`batch_size = 4` and `val_size = 4`, the partition succeeds with
`len(val_set) = 1`, which is not a multiple of `batch_size`; packed-mode
list lengths count whole-batch archives, not samples. -/
theorem packed_val_set_not_batch_multiple :
    get_files_packed [0,1,2,3,4] 4 (some 4) = some ⟨[0], [1,2,3,4], 1, 4⟩ ∧
    ¬ (PartitionP.val_set ⟨[0], [1,2,3,4], 1, 4⟩).length % 4 = 0 := by decide

/-- C4 (amended): in unpacked mode, `len(main_set)` and `len(val_set)`
are both multiples of `batch_size` after partitioning; in packed mode
each entry is one whole-batch archive, so the lengths count batches and
the sample-level divisibility is by construction, not a property of the
list lengths. -/
theorem unpacked_partition_divisible (d : List Entry) (bs v : Nat) (p : Partition)
    (hp : get_files d bs (some v) = some p) :
    p.val_set.length % bs = 0 ∧ p.main_set.length % bs = 0 := by
  simp only [get_files] at hp
  split at hp
  case isTrue hv =>
    split at hp
    case isTrue hb =>
      rw [Option.some_inj] at hp
      subst hp
      constructor
      · simp only [List.length_take]
        rw [min_eq_left (le_trans (Nat.div_mul_le_self v bs) (le_of_lt hv))]
        exact Nat.mul_mod_left _ _
      · simp only [List.length_take]
        rw [min_eq_left (Nat.div_mul_le_self _ _)]
        exact Nat.mul_mod_left _ _
    case isFalse hb => exact absurd hp (by simp)
  case isFalse hv => exact absurd hp (by simp)

/-- Witness for the amended C4 theorem. -/
theorem unpacked_partition_divisible_witness :
    get_files [(0,0),(1,1),(2,2)] 2 (some 1) = some ⟨[], [(0,0),(1,1)], 0, 1⟩ ∧
    ((Partition.val_set ⟨[], [(0,0),(1,1)], 0, 1⟩).length % 2 = 0 ∧
     (Partition.main_set ⟨[], [(0,0),(1,1)], 0, 1⟩).length % 2 = 0) :=
  ⟨by decide,
    unpacked_partition_divisible [(0,0),(1,1),(2,2)] 2 1 ⟨[], [(0,0),(1,1)], 0, 1⟩ (by decide)⟩

/-- C7 counterexample: in packed mode with three archives, `batch_size =
4` and `val_size = 8`, `val_size` is not below the list length (8 ≥ 3),
yet no assertion fires: the packed branch asserts `val_steps <
len(data_list)` with `val_steps = val_size // batch_size = 2 < 3`, not
the claimed `val_size < len(data_list)`. -/
theorem packed_val_assert_uses_val_steps :
    get_files_packed [0,1,2] 4 (some 8) = some ⟨[0,1], [2], 2, 1⟩ ∧
    ([0,1,2] : List Nat).length ≤ 8 := by decide

/-- C7 (amended): with positive batch and group sizes, the unpacked
partition fails by assertion iff `val_size ≥ len(data_list)` or
`batch_size > len(data_list) - (val_size // batch_size) * batch_size`;
the packed partition fails iff `val_size // batch_size ≥ len(data_list)`
(and has no batch-size check); `group_shuffle` fails by assertion iff
`batch_size % group_size ≠ 0`. -/
theorem config_assert_iff (d : List Entry) (dp : List Nat) (ds : List Entry)
    (bs gs v : Nat) (hbs : 0 < bs) (hgs : 0 < gs) :
    (get_files d bs (some v) = none ↔
      (d.length ≤ v ∨ d.length - v / bs * bs < bs)) ∧
    (get_files_packed dp bs (some v) = none ↔ dp.length ≤ v / bs) ∧
    (group_shuffle_checked ds bs gs = none ↔ bs % gs ≠ 0) := by
  refine ⟨?_, ?_, ?_⟩
  · simp only [get_files]
    split
    case isTrue hv =>
      split
      case isTrue hb =>
        rw [List.length_drop] at hb
        exact iff_of_false (by simp) (by rintro (h | h) <;> omega)
      case isFalse hb =>
        rw [List.length_drop] at hb
        exact iff_of_true rfl (Or.inr (by omega))
    case isFalse hv => exact iff_of_true rfl (Or.inl (by omega))
  · simp only [get_files_packed]
    split
    case isTrue hv => exact iff_of_false (by simp) (by omega)
    case isFalse hv => exact iff_of_true rfl (by omega)
  · simp only [group_shuffle_checked]
    split
    case isTrue h => exact iff_of_false (by simp) (by simp [h])
    case isFalse h => exact iff_of_true rfl h

/-- Witness for the amended C7 theorem. -/
theorem config_assert_iff_witness :
    0 < 2 ∧ 0 < 2 ∧
    ((get_files [(0,0)] 2 (some 1) = none ↔
       (([(0,0)] : List Entry).length ≤ 1 ∨
        ([(0,0)] : List Entry).length - 1 / 2 * 2 < 2)) ∧
     (get_files_packed [5] 2 (some 1) = none ↔ ([5] : List Nat).length ≤ 1 / 2) ∧
     (group_shuffle_checked [] 2 2 = none ↔ 2 % 2 ≠ 0)) :=
  ⟨by decide, by decide, config_assert_iff [(0,0)] [5] [] 2 2 1 (by decide) (by decide)⟩

/-- Dropping the first `k` elements of `range n` leaves the shifted range. -/
theorem drop_range (k n : Nat) (hk : k ≤ n) :
    (List.range n).drop k = (List.range (n - k)).map (fun t => k + t) := by
  obtain ⟨m, rfl⟩ : ∃ m, n = k + m := ⟨n - k, by omega⟩
  rw [List.range_add, List.drop_left' (by simp), Nat.add_sub_cancel_left]

/-- C8: for `0 ≤ k < epoch_steps`, the window sequence produced by the
generator started at `start_step = k`, restricted to epoch 0 (its first
`epoch_steps - k` windows), equals the epoch-0 windows of the generator
started at `start_step = 0` with the first `k` windows discarded; epoch
0 never reshuffles, so this holds for any randomness in later epochs. -/
theorem resume_epoch0_suffix (ds : List Entry) (bs es ne gs k : Nat)
    (hes : 0 < es) (hk : k < es) :
    (genWindows ds bs es ne gs k).take (es - k) =
      ((genWindows ds bs es ne gs 0).take es).drop k := by
  cases ne with
  | zero => simp [genWindows]
  | succ n =>
    have hne : es ≤ es * (n + 1) := Nat.le_mul_of_pos_right es (by omega)
    have hdk : k / es = 0 := Nat.div_eq_of_lt hk
    have hd0 : 0 / es = 0 := Nat.zero_div es
    simp only [genWindows, hdk, hd0, List.drop_zero, List.range_succ_eq_map,
      List.map_cons, List.flatten_cons]
    have hlenk : (epochWindows ds bs es (n + 1) gs 0 k).length = es - k := by
      simp [epochWindows, min_eq_left hne]
    have hlen0 : (epochWindows ds bs es (n + 1) gs 0 0).length = es := by
      simp [epochWindows, min_eq_left hne]
    rw [List.take_left' hlenk, List.take_left' hlen0]
    simp only [epochWindows, Nat.mul_zero, Nat.sub_zero, lt_irrefl, if_false,
      min_eq_left hne, Nat.zero_add]
    rw [← List.map_drop, drop_range k es (Nat.le_of_lt hk), List.map_map]
    simp [Function.comp]

/-- Witness for C8 at a concrete dataset with two epoch steps. -/
theorem resume_epoch0_suffix_witness :
    (0 < 2 ∧ 1 < 2) ∧
    (genWindows [(0,0),(1,1),(2,2),(3,3)] 2 2 1 2 1).take (2 - 1) =
      ((genWindows [(0,0),(1,1),(2,2),(3,3)] 2 2 1 2 0).take 2).drop 1 :=
  ⟨⟨by decide, by decide⟩,
    resume_epoch0_suffix [(0,0),(1,1),(2,2),(3,3)] 2 2 1 2 1 (by decide) (by decide)⟩

/-- Unrolling the epoch loop of the generator run: the window output
accumulates while the caller's dataset state passes through unchanged. -/
theorem runGen_fold (bs es ne gs start : Nat) :
    ∀ (L : List Nat) (acc : List (List Entry) × List Entry),
      L.foldl (epochBody bs es ne gs start) acc =
        (acc.1 ++ (L.map (fun e => epochWindows acc.2 bs es ne gs e start)).flatten, acc.2)
  | [], acc => by simp
  | e :: L, acc => by
    rw [List.foldl_cons, runGen_fold bs es ne gs start L (epochBody bs es ne gs start acc e)]
    simp [epochBody, List.append_assoc]

/-- C9: the generator never mutates the caller's dataset list — the state
it threads comes back unchanged — and every epoch's windows are derived
from the original list (epoch 0 directly, epochs `e > 0` through
`group_shuffle` applied to a fresh copy of the original). -/
theorem gen_batches_frame (c : List Entry) (bs es ne gs start : Nat) :
    (runGen c bs es ne gs start).2 = c ∧
    (runGen c bs es ne gs start).1 = genWindows c bs es ne gs start := by
  unfold runGen genWindows
  rw [runGen_fold]
  exact ⟨rfl, by simp⟩

/-- C5: numpy's `np.pad(arr, (0, m))` pads every axis of the 2-D sample
array, so in natural-length mode (`pp_duration = 0`) a window whose
decoded lengths differ (here 3 and 5) produces shapes `(3,5)` and
`(1,5)` and `np.stack` fails — no `[batch, 1, 1, length]` batch is
yielded; with equal lengths, and in fixed/random slicing modes, the
contract shape `[batch_size, 1, 1, signal_length]` and the label vector
do come out as claimed. -/
theorem extract_batch_shape_eval :
    extract_batch_inputs_shape [3, 5] true = none ∧
    extract_batch_inputs_shape [4, 4] true = some [2, 1, 1, 4] ∧
    extract_batch_inputs_shape [7, 7] false = some [2, 1, 1, 7] ∧
    extract_batch_labels [(10, 0), (11, 1)] = [0, 1] := by decide

/-- C6: `process_sample` normalizes by `np.max(data)` — the signed
maximum, not the peak magnitude.  For `data = [-1/2, 1/4]` the scaled
output is `[-2, 1]` with peak absolute amplitude 2, not 1; and the
all-negative `data = [-1/2, -1/4]` is left unscaled although its peak
magnitude exceeds the `1e-6` threshold. -/
theorem normalize_signed_max_eval :
    normalize_sample [-(1 : ℚ)/2, 1/4] = [-2, 1] ∧
    npMax ((normalize_sample [-(1 : ℚ)/2, 1/4]).map (fun x => |x|)) = 2 ∧
    normalize_sample [-(1 : ℚ)/2, -(1 : ℚ)/4] = [-(1 : ℚ)/2, -(1 : ℚ)/4] := by
  refine ⟨?_, ?_, ?_⟩ <;> norm_num [normalize_sample, npMax, max_def, abs]

end SpeakerData
